import Mathlib

/-!
Verification of the `aves_ir` assembler and bytecode encoder.

This file shallowly embeds the Rust source (src/assemble.rs,
src/ir_definition.rs, src/write_bytecode.rs) into Lean.  Parsers work on
`List Char` (the Rust code parses `&str`); a parser result is `PRes α`,
where `ok rest v` mirrors nom's `Ok((rest, v))`, `fail` mirrors
`Err(nom::Err::Error(..))`, and `crash` models a Rust panic (the `reserve`
rule indexes `as_bytes()[0]` on a possibly empty slice, and the bytecode
writer calls `.expect(..)`; panics are modelled explicitly so that
panic-freedom claims are statable).

Notes on fidelity:
- `char::is_alphanumeric` in Rust is Unicode; here it is modelled by
  `Char.isAlphanum` (ASCII), which agrees on all ASCII inputs.
- nom's `tag_no_case` compares characters through Unicode lowercasing;
  here `Char.toLower` is used, which agrees on the ASCII keywords of this
  grammar.
- The `many0`/`many1`/`separated_list0` loops are written with an explicit
  fuel bound of `input.length + 1`; every separator/instruction unit of
  this grammar consumes at least one character on success, so the fuel is
  never exhausted on the nom execution path.
- The numeric opcode tags and intrinsic codes come from C headers outside
  the Rust sources (crate::bindings); the encoder is therefore
  parameterised by the tag and intrinsic-code tables.  Modelled from the
  spec: "Every opcode is written as a 4-byte signed integer tag from a
  fixed tag table".
-/

/-- Character classes used by the lexical rules (assemble.rs). -/
def isSpaceTab (c : Char) : Bool :=
  decide (c = ' ' ∨ c = '\t')

/-- nom's `multispace1` character class: space, tab, CR, LF. -/
def isMS (c : Char) : Bool :=
  decide (c = ' ' ∨ c = '\t' ∨ c = '\r' ∨ c = '\n')

/-- `take_till(|c| c == '\n' || c == '\r')` keeps characters satisfying this. -/
def notNlB (c : Char) : Bool :=
  decide (¬ (c = '\n' ∨ c = '\r'))

/-- `identifier` characters: alphanumeric, `$`, `_` (assemble.rs line 15). -/
def isIdentCharB (c : Char) : Bool :=
  decide (c.isAlphanum = true ∨ c = '$' ∨ c = '_')

/-- Convert a Lean string literal to the character list the parsers consume. -/
def str (s : String) : List Char := s.data

/-- The `Intrinsic` enumeration (ir_definition.rs). -/
inductive Intrinsic where
  | printInt
  | printString
  | exit
deriving DecidableEq, Repr

/-- The `Instruction` tagged variant (ir_definition.rs).  `Label` is an
owned name string; it is inlined here as the `List Char` carried by the
label-taking constructors. -/
inductive Instruction where
  | nop
  | iconst (v : Int)
  | sconst (text : List Char)
  | add | sub | mul | div | mod | bor | band | xor | or | and | eq | lt | gt | not
  | reserveString (size : Nat) (name : List Char) (initialValue : List Char)
  | reserveInt (name : List Char)
  | read (name : List Char)
  | write (name : List Char)
  | argLocalRead (index : Nat)
  | argLocalWrite (index : Nat)
  | label (name : List Char)
  | jump (name : List Char)
  | branchZero (name : List Char)
  | function (name : List Char) (numLocs : Nat)
  | call (name : List Char) (numArgs : Nat)
  | ret
  | intrinsic (i : Intrinsic)
  | push (reg : Int)
  | pop (reg : Int)
deriving DecidableEq, Repr

/-- Result of a nom parser over `&str`: `ok rest v` is `Ok((rest, v))`,
`fail` is `Err(Err::Error(..))`, `crash` is a Rust panic. -/
inductive PRes (α : Type) where
  | ok (rest : List Char) (val : α)
  | fail
  | crash
deriving DecidableEq, Repr

/-- Result of `assemble::program` (which returns `Result<Vec<Instruction>, _>`). -/
inductive RunRes (α : Type) where
  | ok (val : α)
  | fail
  | crash
deriving DecidableEq, Repr

namespace Asm

/-- nom `tag_no_case`: match the keyword case-insensitively, returning the
rest of the input. -/
def tagNoCase : List Char → List Char → Option (List Char)
  | [], input => some input
  | _ :: _, [] => none
  | k :: kw, c :: input =>
    if c.toLower = k.toLower then tagNoCase kw input else none

/-- `identifier`: `take_while1` over identifier characters. -/
def identifier (input : List Char) : Option (List Char × List Char) :=
  let p := input.takeWhile isIdentCharB
  if p = [] then none else some (input.dropWhile isIdentCharB, p)

/-- The loop of nom's `escaped_transform(none_of("\\\""), '\\', alt((tag("\\"), tag("\""))))`
(assemble.rs `inside_string`): ordinary characters pass through, `\\` and
`\"` decode to `\` and `"`, a `"` stops the scan, and any other backslash
sequence (or a trailing backslash) makes the whole transform fail. -/
def insideStringLoop : List Char → Option (List Char × List Char)
  | [] => some ([], [])
  | c :: rest =>
    if c = '"' then some (c :: rest, [])
    else if c = '\\' then
      match rest with
      | [] => none
      | e :: rest2 =>
        if e = '\\' ∨ e = '"' then
          match insideStringLoop rest2 with
          | some (r, out) => some (r, e :: out)
          | none => none
        else none
    else
      match insideStringLoop rest with
      | some (r, out) => some (r, c :: out)
      | none => none

/-- `inside_string`: `opt(escaped_transform(..))` — a failing transform is
recovered by `opt`, consuming nothing and yielding the empty string. -/
def inside_string (input : List Char) : List Char × List Char :=
  match insideStringLoop input with
  | some (r, out) => (r, out)
  | none => (input, [])

/-- `string_literal`: `delimited(char('"'), inside_string, char('"'))`. -/
def string_literal (input : List Char) : Option (List Char × List Char) :=
  match input with
  | [] => none
  | c :: rest =>
    if c = '"' then
      match inside_string rest with
      | (r1, out) =>
        match r1 with
        | [] => none
        | c2 :: r2 => if c2 = '"' then some (r2, out) else none
    else none

/-- `take_until("*/")`: split the input at the first occurrence of `*/`;
fail when there is none.  Returns (rest starting at `*/`, prefix before). -/
def takeUntilCC : List Char → Option (List Char × List Char)
  | [] => none
  | [_] => none
  | a :: b :: rest =>
    if a = '*' ∧ b = '/' then some (a :: b :: rest, [])
    else
      match takeUntilCC (b :: rest) with
      | some (r, pre) => some (r, a :: pre)
      | none => none

/-- `multi_line_comment`: `delimited(tag("/*"), take_until("*/"), tag("*/"))`.
Returns (rest, consumed characters including the delimiters), the consumed
slice being what `recognize` sees. -/
def multi_line_comment (input : List Char) : Option (List Char × List Char) :=
  match input with
  | '/' :: '*' :: rest =>
    (match takeUntilCC rest with
     | some ('*' :: '/' :: r2, body) => some (r2, '/' :: '*' :: (body ++ ['*', '/']))
     | _ => none)
  | _ => none

/-- `single_line_comment`: `preceded(tag("#"), take_till(newline))`.
Returns (rest, consumed characters including the `#`). -/
def single_line_comment (input : List Char) : Option (List Char × List Char) :=
  match input with
  | '#' :: rest => some (rest.dropWhile notNlB, '#' :: rest.takeWhile notNlB)
  | _ => none

/-- nom `space1` (spaces and tabs), returning (rest, consumed). -/
def space1 (input : List Char) : Option (List Char × List Char) :=
  let p := input.takeWhile isSpaceTab
  if p = [] then none else some (input.dropWhile isSpaceTab, p)

/-- nom `multispace1` (spaces, tabs, CR, LF), returning (rest, consumed). -/
def multispace1 (input : List Char) : Option (List Char × List Char) :=
  let p := input.takeWhile isMS
  if p = [] then none else some (input.dropWhile isMS, p)

/-- One unit of `within_node`: `alt((space1, multi_line_comment))`. -/
def wnUnit (input : List Char) : Option (List Char × List Char) :=
  match space1 input with
  | some r => some r
  | none => multi_line_comment input

/-- One unit of `between_nodes`:
`alt((multispace1, multi_line_comment, single_line_comment))`. -/
def bnUnit (input : List Char) : Option (List Char × List Char) :=
  match multispace1 input with
  | some r => some r
  | none =>
    match multi_line_comment input with
    | some r => some r
    | none => single_line_comment input

/-- nom `many0` over a unit parser, with fuel.  Every unit of this grammar
consumes at least one character on success, so fuel `input.length + 1`
reproduces nom's loop exactly. -/
def many0R (unit : List Char → Option (List Char × List Char)) :
    Nat → List Char → List Char × List Char
  | 0, input => (input, [])
  | fuel + 1, input =>
    match unit input with
    | some (rest, consumed) =>
      let (r2, c2) := many0R unit fuel rest
      (r2, consumed ++ c2)
    | none => (input, [])

/-- `within_node`: `recognize(many0(alt((space1, multi_line_comment))))`.
Always succeeds; returns (rest, consumed). -/
def within_node (input : List Char) : List Char × List Char :=
  many0R wnUnit (input.length + 1) input

/-- `between_nodes`: `recognize(many1(alt((multispace1, multi_line_comment,
single_line_comment))))`.  `none` when no unit matches. -/
def between_nodes (input : List Char) : Option (List Char × List Char) :=
  match bnUnit input with
  | none => none
  | some (r, c) =>
    let (r2, c2) := many0R bnUnit (r.length + 1) r
    some (r2, c ++ c2)

/-- Digit run helper for nom's integer parsers. -/
def digitsToNat (ds : List Char) : Nat :=
  ds.foldl (fun a c => a * 10 + (c.toNat - '0'.toNat)) 0

/-- Sign handling of nom's `i64`: `opt(alt((char('+'), char('-'))))`. -/
def splitSign : List Char → Int × List Char
  | '+' :: r => (1, r)
  | '-' :: r => (-1, r)
  | r => (1, r)

/-- nom `character::complete::i64`: optional sign, then at least one digit,
with a checked-overflow accumulation (out-of-range literals fail). -/
def nomI64 (input : List Char) : Option (List Char × Int) :=
  let (sign, rest1) := splitSign input
  let ds := rest1.takeWhile Char.isDigit
  if ds = [] then none
  else
    let v : Int := sign * (digitsToNat ds : Int)
    if -(2 ^ 63) ≤ v ∧ v ≤ 2 ^ 63 - 1 then
      some (rest1.dropWhile Char.isDigit, v)
    else none

/-- nom `character::complete::u64`: at least one digit, no sign, with a
checked-overflow accumulation. -/
def nomU64 (input : List Char) : Option (List Char × Nat) :=
  let ds := input.takeWhile Char.isDigit
  if ds = [] then none
  else
    let v := digitsToNat ds
    if v < 2 ^ 64 then some (input.dropWhile Char.isDigit, v)
    else none

/-- The keyword lists used by `tag_no_case` in assemble.rs. -/
def kwICONST : List Char := ['I', 'C', 'O', 'N', 'S', 'T']

def kwSCONST : List Char := ['S', 'C', 'O', 'N', 'S', 'T']

def kwNOP : List Char := ['N', 'O', 'P']

def kwADD : List Char := ['A', 'D', 'D']

def kwSUB : List Char := ['S', 'U', 'B']

def kwMUL : List Char := ['M', 'U', 'L']

def kwDIV : List Char := ['D', 'I', 'V']

def kwMOD : List Char := ['M', 'O', 'D']

def kwBOR : List Char := ['B', 'O', 'R']

def kwBAND : List Char := ['B', 'A', 'N', 'D']

def kwXOR : List Char := ['X', 'O', 'R']

def kwOR : List Char := ['O', 'R']

def kwAND : List Char := ['A', 'N', 'D']

def kwEQ : List Char := ['E', 'Q']

def kwLT : List Char := ['L', 'T']

def kwGT : List Char := ['G', 'T']

def kwNOT : List Char := ['N', 'O', 'T']

def kwRESERVE : List Char := ['R', 'E', 'S', 'E', 'R', 'V', 'E']

def kwNULL : List Char := ['(', 'n', 'u', 'l', 'l', ')']

def kwREAD : List Char := ['R', 'E', 'A', 'D']

def kwWRITE : List Char := ['W', 'R', 'I', 'T', 'E']

def kwARGLOCALREAD : List Char :=
  ['A', 'R', 'G', 'L', 'O', 'C', 'A', 'L', '_', 'R', 'E', 'A', 'D']

def kwARGLOCALWRITE : List Char :=
  ['A', 'R', 'G', 'L', 'O', 'C', 'A', 'L', '_', 'W', 'R', 'I', 'T', 'E']

def kwJUMP : List Char := ['J', 'U', 'M', 'P']

def kwBRANCHZERO : List Char := ['B', 'R', 'A', 'N', 'C', 'H', 'Z', 'E', 'R', 'O']

def kwFUNCTION : List Char := ['F', 'U', 'N', 'C', 'T', 'I', 'O', 'N']

def kwCALL : List Char := ['C', 'A', 'L', 'L']

def kwRET : List Char := ['R', 'E', 'T']

def kwINTRINSIC : List Char := ['I', 'N', 'T', 'R', 'I', 'N', 'S', 'I', 'C']

def kwPRINTINT : List Char := ['P', 'R', 'I', 'N', 'T', '_', 'I', 'N', 'T']

def kwPRINTSTRING : List Char :=
  ['P', 'R', 'I', 'N', 'T', '_', 'S', 'T', 'R', 'I', 'N', 'G']

def kwEXIT : List Char := ['E', 'X', 'I', 'T']

/-- The body generated by the `noarg_node!` macro: a bare case-insensitive
keyword, leaving all trailing input (including whitespace) unconsumed. -/
def noargNode (kw : List Char) (result : Instruction) (input : List Char) :
    PRes Instruction :=
  match tagNoCase kw input with
  | none => .fail
  | some rest => .ok rest result

def nop : List Char → PRes Instruction := noargNode kwNOP .nop

def add : List Char → PRes Instruction := noargNode kwADD .add

def sub : List Char → PRes Instruction := noargNode kwSUB .sub

def mul : List Char → PRes Instruction := noargNode kwMUL .mul

def div : List Char → PRes Instruction := noargNode kwDIV .div

def mod_ : List Char → PRes Instruction := noargNode kwMOD .mod

def bor : List Char → PRes Instruction := noargNode kwBOR .bor

def band : List Char → PRes Instruction := noargNode kwBAND .band

def xor : List Char → PRes Instruction := noargNode kwXOR .xor

def or : List Char → PRes Instruction := noargNode kwOR .or

def and : List Char → PRes Instruction := noargNode kwAND .and

def eq : List Char → PRes Instruction := noargNode kwEQ .eq

def lt : List Char → PRes Instruction := noargNode kwLT .lt

def gt : List Char → PRes Instruction := noargNode kwGT .gt

def not : List Char → PRes Instruction := noargNode kwNOT .not

def ret : List Char → PRes Instruction := noargNode kwRET .ret

/-- `iconst`: `preceded(tuple((tag_no_case("ICONST"), within_node)), i64)`. -/
def iconst (input : List Char) : PRes Instruction :=
  match tagNoCase kwICONST input with
  | none => .fail
  | some r1 =>
    match nomI64 (within_node r1).1 with
    | none => .fail
    | some (r2, v) => .ok r2 (.iconst v)

/-- `sconst`: keyword, within-node separator, then a string literal. -/
def sconst (input : List Char) : PRes Instruction :=
  match tagNoCase kwSCONST input with
  | none => .fail
  | some r1 =>
    match string_literal (within_node r1).1 with
    | none => .fail
    | some (r2, text) => .ok r2 (.sconst text)

/-- `reserve` (assemble.rs lines 110-134).  After the keyword, the name, the
size and a `within_node` run, the Rust code inspects
`start_of_string_or_null.as_bytes()[0]`; when the remaining input is empty
this indexing panics, modelled as `.crash`. -/
def reserve (input : List Char) : PRes Instruction :=
  match tagNoCase kwRESERVE input with
  | none => .fail
  | some r1 =>
    match identifier (within_node r1).1 with
    | none => .fail
    | some (r2, name) =>
      match nomU64 (within_node r2).1 with
      | none => .fail
      | some (r3, size) =>
        match (within_node r3).1 with
        | [] => .crash
        | c :: r4 =>
          if c = '"' then
            match string_literal (c :: r4) with
            | none => .fail
            | some (rest, initialValue) =>
              .ok rest (.reserveString size name initialValue)
          else
            match tagNoCase kwNULL (c :: r4) with
            | none => .fail
            | some rest => .ok rest (.reserveInt name)

/-- `read`: keyword, separator, identifier. -/
def read (input : List Char) : PRes Instruction :=
  match tagNoCase kwREAD input with
  | none => .fail
  | some r1 =>
    match identifier (within_node r1).1 with
    | none => .fail
    | some (r2, name) => .ok r2 (.read name)

/-- `write`: keyword, separator, identifier. -/
def write (input : List Char) : PRes Instruction :=
  match tagNoCase kwWRITE input with
  | none => .fail
  | some r1 =>
    match identifier (within_node r1).1 with
    | none => .fail
    | some (r2, name) => .ok r2 (.write name)

/-- `arg_local_read`: keyword, separator, unsigned index (negative fails). -/
def arg_local_read (input : List Char) : PRes Instruction :=
  match tagNoCase kwARGLOCALREAD input with
  | none => .fail
  | some r1 =>
    match nomU64 (within_node r1).1 with
    | none => .fail
    | some (r2, index) => .ok r2 (.argLocalRead index)

/-- `arg_local_write`: keyword, separator, unsigned index. -/
def arg_local_write (input : List Char) : PRes Instruction :=
  match tagNoCase kwARGLOCALWRITE input with
  | none => .fail
  | some r1 =>
    match nomU64 (within_node r1).1 with
    | none => .fail
    | some (r2, index) => .ok r2 (.argLocalWrite index)

/-- `label`: `terminated(identifier, tag_no_case(":"))` — an identifier
immediately followed by a colon, with no separator in between. -/
def label (input : List Char) : PRes Instruction :=
  match identifier input with
  | none => .fail
  | some (r1, name) =>
    match tagNoCase [':'] r1 with
    | none => .fail
    | some rest => .ok rest (.label name)

/-- `jump`: keyword, separator, identifier. -/
def jump (input : List Char) : PRes Instruction :=
  match tagNoCase kwJUMP input with
  | none => .fail
  | some r1 =>
    match identifier (within_node r1).1 with
    | none => .fail
    | some (r2, name) => .ok r2 (.jump name)

/-- `branch_zero`: keyword, separator, identifier. -/
def branch_zero (input : List Char) : PRes Instruction :=
  match tagNoCase kwBRANCHZERO input with
  | none => .fail
  | some r1 =>
    match identifier (within_node r1).1 with
    | none => .fail
    | some (r2, name) => .ok r2 (.branchZero name)

/-- `function`: keyword, separator, identifier, separator, unsigned count. -/
def function (input : List Char) : PRes Instruction :=
  match tagNoCase kwFUNCTION input with
  | none => .fail
  | some r1 =>
    match identifier (within_node r1).1 with
    | none => .fail
    | some (r2, name) =>
      match nomU64 (within_node r2).1 with
      | none => .fail
      | some (r3, numLocs) => .ok r3 (.function name numLocs)

/-- `call`: keyword, separator, identifier, separator, unsigned count. -/
def call (input : List Char) : PRes Instruction :=
  match tagNoCase kwCALL input with
  | none => .fail
  | some r1 =>
    match identifier (within_node r1).1 with
    | none => .fail
    | some (r2, name) =>
      match nomU64 (within_node r2).1 with
      | none => .fail
      | some (r3, numArgs) => .ok r3 (.call name numArgs)

/-- `intrinsic`: keyword, separator, one of the three intrinsic keywords. -/
def intrinsic (input : List Char) : PRes Instruction :=
  match tagNoCase kwINTRINSIC input with
  | none => .fail
  | some r1 =>
    let r2 := (within_node r1).1
    match tagNoCase kwPRINTINT r2 with
    | some rest => .ok rest (.intrinsic .printInt)
    | none =>
      match tagNoCase kwPRINTSTRING r2 with
      | some rest => .ok rest (.intrinsic .printString)
      | none =>
        match tagNoCase kwEXIT r2 with
        | some rest => .ok rest (.intrinsic .exit)
        | none => .fail

/-- `push`: keyword, separator, signed immediate. -/
def push (input : List Char) : PRes Instruction :=
  match tagNoCase ['P', 'U', 'S', 'H'] input with
  | none => .fail
  | some r1 =>
    match nomI64 (within_node r1).1 with
    | none => .fail
    | some (r2, reg) => .ok r2 (.push reg)

/-- `pop`: keyword, separator, signed immediate. -/
def pop (input : List Char) : PRes Instruction :=
  match tagNoCase ['P', 'O', 'P'] input with
  | none => .fail
  | some r1 =>
    match nomI64 (within_node r1).1 with
    | none => .fail
    | some (r2, reg) => .ok r2 (.pop reg)

/-- nom `alt` over two alternatives: the second runs only when the first
returns a recoverable `fail`; `ok` and `crash` (panic) propagate. -/
def alt2 (p q : List Char → PRes Instruction) (input : List Char) :
    PRes Instruction :=
  match p input with
  | .fail => q input
  | r => r

/-- The first `alt` group of `node`. -/
def nodeArith : List Char → PRes Instruction :=
  alt2 iconst (alt2 sconst (alt2 nop (alt2 add (alt2 sub (alt2 mul (alt2 div
    (alt2 mod_ (alt2 bor (alt2 band (alt2 xor (alt2 or (alt2 and (alt2 eq
      (alt2 lt (alt2 gt not)))))))))))))))

/-- The second `alt` group of `node`. -/
def nodeVars : List Char → PRes Instruction :=
  alt2 reserve (alt2 read (alt2 write (alt2 arg_local_read arg_local_write)))

/-- The third `alt` group of `node`. -/
def nodeCtrl : List Char → PRes Instruction :=
  alt2 label (alt2 jump branch_zero)

/-- The fourth `alt` group of `node`. -/
def nodeFuncs : List Char → PRes Instruction :=
  alt2 function (alt2 call (alt2 ret intrinsic))

/-- The fifth `alt` group of `node`. -/
def nodeStack : List Char → PRes Instruction :=
  alt2 push pop

/-- `node` (assemble.rs lines 227-237): the instruction parser, trying the
alternatives in source order. -/
def node : List Char → PRes Instruction :=
  alt2 nodeArith (alt2 nodeVars (alt2 nodeCtrl (alt2 nodeFuncs nodeStack)))

/-- The loop of nom's `separated_list0(between_nodes, node)` after the first
element, including nom's zero-length-separator check; a failing `node`
backtracks the separator and stops the list. -/
def sepLoop : Nat → List Char → List Instruction → PRes (List Instruction)
  | 0, input, acc => .ok input acc
  | fuel + 1, input, acc =>
    match between_nodes input with
    | none => .ok input acc
    | some (i1, _) =>
      if i1.length = input.length then .fail
      else
        match node i1 with
        | .crash => .crash
        | .fail => .ok input acc
        | .ok i2 o => sepLoop fuel i2 (acc ++ [o])

/-- `separated_list0(between_nodes, node)`. -/
def sepList (fuel : Nat) (input : List Char) : PRes (List Instruction) :=
  match node input with
  | .crash => .crash
  | .fail => .ok input []
  | .ok i1 o => sepLoop fuel i1 [o]

/-- The `delimited(opt(between_nodes), separated_list0(..), opt(between_nodes))`
body of `program`, before `all_consuming`. -/
def progBody (input : List Char) : PRes (List Instruction) :=
  let r1 :=
    match between_nodes input with
    | some (r, _) => r
    | none => input
  match sepList (r1.length + 1) r1 with
  | .crash => .crash
  | .fail => .fail
  | .ok r2 prog =>
    let r3 :=
      match between_nodes r2 with
      | some (r, _) => r
      | none => r2
    .ok r3 prog

/-- `program` (assemble.rs lines 239-248): the body wrapped in
`all_consuming` — any unparsed remainder is a parse error. -/
def program (input : List Char) : RunRes (List Instruction) :=
  match progBody input with
  | .ok rest prog => if rest = [] then .ok prog else .fail
  | .fail => .fail
  | .crash => .crash

end Asm

/-! ## Bytecode encoder (write_bytecode.rs)

Bytes are modelled as `Nat` values < 256; an encoder returns
`Option (List Nat)`, `none` modelling the `.expect(..)` panic taken when a
range check fails.  The opcode tags and intrinsic numeric codes are C enum
constants from `crate::bindings` whose header is not among the Rust
sources; the encoder is parameterised by them. -/

/-- `i32::MIN` as an integer. -/
def i32Min : Int := -(2 ^ 31)

/-- `i32::MAX` as an integer. -/
def i32Max : Int := 2 ^ 31 - 1

/-- Little-endian 4-byte encoding of a natural number below `2^32`. -/
def leBytes4N (n : Nat) : List Nat :=
  [n % 256, n / 256 % 256, n / 65536 % 256, n / 16777216 % 256]

/-- `i32::to_le_bytes`: two's-complement little-endian bytes of `v`. -/
def toLeBytes4 (v : Int) : List Nat :=
  leBytes4N ((v % (2 ^ 32)).toNat)

/-- `WriteBytecode for i64` (write_bytecode.rs lines 29-37):
`i32::try_from(v).expect(..)` then the 4 little-endian bytes — a value
outside the `i32` range is a panic (`none`), never a wrap. -/
def writeI64 (v : Int) : Option (List Nat) :=
  if i32Min ≤ v ∧ v ≤ i32Max then some (toLeBytes4 v) else none

/-- `WriteBytecode for u64` (write_bytecode.rs lines 39-46):
`i32::try_from(n).expect(..)` — the wire type is a signed 32-bit int. -/
def writeU64 (n : Nat) : Option (List Nat) :=
  if (n : Int) ≤ i32Max then some (toLeBytes4 (n : Int)) else none

/-- UTF-8 encoding of one character (`str::as_bytes` on the Rust side). -/
def utf8Bytes (c : Char) : List Nat :=
  let n := c.toNat
  if n < 128 then [n]
  else if n < 2048 then
    [192 + n / 64, 128 + n % 64]
  else if n < 65536 then
    [224 + n / 4096, 128 + n / 64 % 64, 128 + n % 64]
  else
    [240 + n / 262144, 128 + n / 4096 % 64, 128 + n / 64 % 64, 128 + n % 64]

/-- The UTF-8 bytes of a string. -/
def strBytes (s : List Char) : List Nat :=
  s.foldr (fun c acc => utf8Bytes c ++ acc) []

/-- `WriteBytecode for &str` (write_bytecode.rs lines 48-59): a 4-byte
signed length equal to byte length + 1, the raw bytes, then one NUL byte;
`i32::try_from(len + 1).expect(..)` panics (`none`) when out of range. -/
def writeStr (s : List Char) : Option (List Nat) :=
  let raw := strBytes s
  if ((raw.length + 1 : Nat) : Int) ≤ i32Max then
    some (toLeBytes4 ((raw.length + 1 : Nat) : Int) ++ raw ++ [0])
  else none

/-- A 4-byte opcode tag or intrinsic code written as a 32-bit integer. -/
def writeTag (t : Nat) : List Nat :=
  leBytes4N (t % 2 ^ 32)

/-- `WriteBytecode for Instruction` (write_bytecode.rs lines 81-177),
parameterised by the opcode-tag table `tag` and the intrinsic numeric-code
table `icode` (both live in C headers outside the Rust sources; modelled
from the spec, which says they are fixed per-case tables). -/
def encodeInstr (tag : Instruction → Nat) (icode : Intrinsic → Nat) :
    Instruction → Option (List Nat)
  | .nop => some (writeTag (tag .nop))
  | .iconst v => (writeI64 v).map fun b => writeTag (tag (.iconst v)) ++ b
  | .sconst text => (writeStr text).map fun b => writeTag (tag (.sconst text)) ++ b
  | .add => some (writeTag (tag .add))
  | .sub => some (writeTag (tag .sub))
  | .mul => some (writeTag (tag .mul))
  | .div => some (writeTag (tag .div))
  | .mod => some (writeTag (tag .mod))
  | .bor => some (writeTag (tag .bor))
  | .band => some (writeTag (tag .band))
  | .xor => some (writeTag (tag .xor))
  | .or => some (writeTag (tag .or))
  | .and => some (writeTag (tag .and))
  | .eq => some (writeTag (tag .eq))
  | .lt => some (writeTag (tag .lt))
  | .gt => some (writeTag (tag .gt))
  | .not => some (writeTag (tag .not))
  | .reserveString size name initialValue =>
    (writeStr name).bind fun nb =>
      (writeStr initialValue).bind fun ib =>
        (writeU64 size).map fun sb =>
          writeTag (tag (.reserveString size name initialValue)) ++ nb ++ ib ++ sb
  | .reserveInt name =>
    (writeStr name).map fun nb =>
      writeTag (tag (.reserveInt name)) ++ nb ++ toLeBytes4 0 ++ toLeBytes4 4
  | .read name => (writeStr name).map fun b => writeTag (tag (.read name)) ++ b
  | .write name => (writeStr name).map fun b => writeTag (tag (.write name)) ++ b
  | .argLocalRead index =>
    (writeU64 index).map fun b => writeTag (tag (.argLocalRead index)) ++ b
  | .argLocalWrite index =>
    (writeU64 index).map fun b => writeTag (tag (.argLocalWrite index)) ++ b
  | .label name => (writeStr name).map fun b => writeTag (tag (.label name)) ++ b
  | .jump name => (writeStr name).map fun b => writeTag (tag (.jump name)) ++ b
  | .branchZero name =>
    (writeStr name).map fun b => writeTag (tag (.branchZero name)) ++ b
  | .function name numLocs =>
    (writeStr name).bind fun nb =>
      (writeU64 numLocs).map fun cb =>
        writeTag (tag (.function name numLocs)) ++ nb ++ cb
  | .call name numArgs =>
    (writeStr name).bind fun nb =>
      (writeU64 numArgs).map fun cb =>
        writeTag (tag (.call name numArgs)) ++ nb ++ cb
  | .ret => some (writeTag (tag .ret))
  | .intrinsic i =>
    some (writeTag (tag (.intrinsic i)) ++ writeTag (icode i))
  | .push reg => (writeI64 reg).map fun b => writeTag (tag (.push reg)) ++ b
  | .pop reg => (writeI64 reg).map fun b => writeTag (tag (.pop reg)) ++ b

/-! ## Shape predicates used to state grammar-level claims -/

/-- Whether a character list contains the substring `*/`. -/
def containsStarSlash : List Char → Bool
  | [] => false
  | [_] => false
  | a :: b :: rest => decide (a = '*' ∧ b = '/') || containsStarSlash (b :: rest)

/-- The shape of a `within_node` separator run: a sequence of spaces, tabs
and complete block comments.  A bare newline is not allowed; a newline can
occur only inside the `body` of a block comment. -/
inductive WithinRun : List Char → Prop where
  | nil : WithinRun []
  | space (c : Char) (rest : List Char) :
      c = ' ' ∨ c = '\t' → WithinRun rest → WithinRun (c :: rest)
  | comment (body rest : List Char) :
      WithinRun rest → WithinRun ('/' :: '*' :: (body ++ ('*' :: '/' :: rest)))

/-- An input consisting solely of whitespace and (well-formed) comments:
whitespace characters, non-nesting block comments, and line comments that
run to a newline or to the end of the input. -/
inductive SepText : List Char → Prop where
  | nil : SepText []
  | ws (c : Char) (rest : List Char) :
      isMS c = true → SepText rest → SepText (c :: rest)
  | block (body rest : List Char) :
      containsStarSlash body = false → SepText rest →
      SepText ('/' :: '*' :: (body ++ ('*' :: '/' :: rest)))
  | line (body rest : List Char) :
      (∀ c ∈ body, notNlB c = true) →
      (rest = [] ∨ ∃ h t, rest = h :: t ∧ notNlB h = false) →
      SepText rest →
      SepText ('#' :: (body ++ rest))

/-! ## Helper lemmas -/

/-- `takeWhile`/`dropWhile` on an append whose left part satisfies the
predicate and whose right part starts with a character that does not. -/
theorem takeWhile_app {p : Char → Bool} :
    ∀ (l r : List Char), (∀ c ∈ l, p c = true) →
      (∀ h t, r = h :: t → p h = false) →
      (l ++ r).takeWhile p = l ∧ (l ++ r).dropWhile p = r := by
  intro l r hl hr
  induction l with
  | nil =>
    simp only [List.nil_append]
    cases r with
    | nil => simp
    | cons h t =>
      have := hr h t rfl
      simp [List.takeWhile_cons, List.dropWhile_cons, this]
  | cons a l ih =>
    have ha : p a = true := hl a (by simp)
    have ih' := ih (fun c hc => hl c (by simp [hc]))
    simp [List.takeWhile_cons, List.dropWhile_cons, ha, ih'.1, ih'.2]

/-- `take_until("*/")` on `body ++ "*/" ++ rest` where `body` does not
contain `*/`: it stops exactly at the explicit `*/`. -/
theorem takeUntilCC_app :
    ∀ (body rest : List Char), containsStarSlash body = false →
      Asm.takeUntilCC (body ++ '*' :: '/' :: rest) = some ('*' :: '/' :: rest, body) := by
  intro body
  induction body with
  | nil =>
    intro rest _
    simp [Asm.takeUntilCC]
  | cons a body' ih =>
    intro rest h
    cases body' with
    | nil =>
      have hne : ¬(a = '*' ∧ ('*' : Char) = '/') := by
        intro hcon
        exact absurd hcon.2 (by decide)
      simp [Asm.takeUntilCC, hne]
    | cons b body'' =>
      have h' : ¬(a = '*' ∧ b = '/') ∧ containsStarSlash (b :: body'') = false := by
        simpa [containsStarSlash] using h
      have hrec : Asm.takeUntilCC (b :: (body'' ++ '*' :: '/' :: rest))
          = some ('*' :: '/' :: rest, b :: body'') := by
        simpa using ih rest h'.2
      simp [Asm.takeUntilCC, h'.1, hrec]

/-! ## Claim C1 (code bug): `reserve` panics when the input ends right
after the size operand -/

/-- Claim C1: the spec says assembly never panics and reports a parse
error at the offending position; but on the input `RESERVE x 4`, which
ends immediately after the size operand, the `reserve` rule evaluates
`start_of_string_or_null.as_bytes()[0]` on an empty slice and panics.
The embedded parser reaches the `crash` outcome. -/
theorem C1_reserve_panics : Asm.program (str "RESERVE x 4") = .crash := by decide

/-! ## Claim C2: 64-bit operands are range-checked to the 32-bit wire
width at encode time, never silently wrapped -/

/-- Claim C2: for each instruction with an integer-valued operand (Iconst
value, ArgLocal index, Function/Call count, Push/Pop register), encoding
is a hard failure when the 64-bit operand does not fit in a signed 32-bit
integer, and a successful encoding implies the operand was in range and
its bytes are the exact (unwrapped) little-endian value. -/
theorem C2_encode_range :
    ∀ (tag : Instruction → Nat) (icode : Intrinsic → Nat) (v : Int) (n : Nat),
      ((v < i32Min ∨ i32Max < v) →
          encodeInstr tag icode (.iconst v) = none
        ∧ encodeInstr tag icode (.push v) = none
        ∧ encodeInstr tag icode (.pop v) = none)
    ∧ (i32Max < (n : Int) →
          encodeInstr tag icode (.argLocalRead n) = none
        ∧ encodeInstr tag icode (.argLocalWrite n) = none
        ∧ ∀ name, encodeInstr tag icode (.function name n) = none
                ∧ encodeInstr tag icode (.call name n) = none)
    ∧ (∀ bs, encodeInstr tag icode (.iconst v) = some bs →
        (i32Min ≤ v ∧ v ≤ i32Max)
        ∧ bs = writeTag (tag (.iconst v)) ++ toLeBytes4 v) := by
  intro tag icode v n
  refine ⟨?_, ?_, ?_⟩
  · intro h
    have hr : ¬(i32Min ≤ v ∧ v ≤ i32Max) := by
      rcases h with h | h <;> omega
    refine ⟨?_, ?_, ?_⟩ <;> simp [encodeInstr, writeI64, hr]
  · intro h
    have hr : ¬((n : Int) ≤ i32Max) := by omega
    refine ⟨?_, ?_, ?_⟩
    · simp [encodeInstr, writeU64, hr]
    · simp [encodeInstr, writeU64, hr]
    · intro name
      constructor <;> cases hw : writeStr name <;>
        simp [encodeInstr, writeU64, hr, hw]
  · intro bs h
    by_cases hr : i32Min ≤ v ∧ v ≤ i32Max
    · refine ⟨hr, ?_⟩
      simp [encodeInstr, writeI64, hr] at h
      exact h.symm
    · simp [encodeInstr, writeI64, hr] at h

/-- Witness for C2 at the smallest out-of-range value `2^31`. -/
theorem C2_encode_range_witness :
    encodeInstr (fun _ => 0) (fun _ => 0) (.iconst (2 ^ 31)) = none
    ∧ encodeInstr (fun _ => 0) (fun _ => 0) (.argLocalRead (2 ^ 31)) = none := by
  refine ⟨((C2_encode_range (fun _ => 0) (fun _ => 0) (2 ^ 31) 0).1 ?_).1,
          (((C2_encode_range (fun _ => 0) (fun _ => 0) 0 (2 ^ 31)).2.1 ?_)).1⟩
  · right
    decide
  · decide

/-! ## Claim C3: string-literal escapes -/

/-- Claim C3: inside a string literal, `\"` decodes to `"` and `\\` decodes
to `\`; any other backslash sequence, including a trailing backslash,
makes the escape scan fail, and then the literal does not close; the empty
literal `""` is valid and yields the empty string. -/
theorem C3_string_escapes :
    (∀ rest r out, Asm.insideStringLoop rest = some (r, out) →
        Asm.insideStringLoop ('\\' :: '"' :: rest) = some (r, '"' :: out)
      ∧ Asm.insideStringLoop ('\\' :: '\\' :: rest) = some (r, '\\' :: out))
    ∧ (∀ e rest, ¬(e = '\\' ∨ e = '"') →
        Asm.insideStringLoop ('\\' :: e :: rest) = none)
    ∧ Asm.insideStringLoop ['\\'] = none
    ∧ (∀ body, Asm.insideStringLoop body = none →
        Asm.string_literal ('"' :: body) = none)
    ∧ Asm.string_literal ('"' :: '"' :: []) = some ([], []) := by
  refine ⟨?_, ?_, by decide, ?_, by decide⟩
  · intro rest r out h
    constructor <;>
      · rw [Asm.insideStringLoop.eq_def]
        simp [h]
  · intro e rest h
    rw [Asm.insideStringLoop.eq_def]
    simp [h]
  · intro body h
    cases body with
    | nil =>
      rw [Asm.insideStringLoop.eq_def] at h
      simp at h
    | cons c t =>
      by_cases hc : c = '"'
      · subst hc
        rw [Asm.insideStringLoop.eq_def] at h
        simp at h
      · simp [Asm.string_literal, Asm.inside_string, h, hc]

/-- Witness for C3: `\"` decodes to a quote, `\n` is not an escape, and a
literal containing `\n` fails to close. -/
theorem C3_string_escapes_witness :
    Asm.insideStringLoop ('\\' :: '"' :: []) = some ([], ['"'])
    ∧ Asm.insideStringLoop ('\\' :: 'n' :: []) = none
    ∧ Asm.string_literal ('"' :: '\\' :: 'n' :: '"' :: []) = none :=
  ⟨(C3_string_escapes.1 [] [] [] (by decide)).1,
   C3_string_escapes.2.1 'n' [] (by decide),
   C3_string_escapes.2.2.2.1 ('\\' :: 'n' :: '"' :: []) (by decide)⟩

/-! ## Claim C5: the whole input must be consumed -/

/-- Claim C5: `program` wraps its body in `all_consuming`: whenever the
leading-separator/instruction-list/trailing-separator body leaves any
unparsed remainder, `program` fails instead of returning a partial
Program; conversely a successful `program` means the body consumed
everything. -/
theorem C5_all_consuming :
    ∀ input,
      (∀ rest prog, Asm.progBody input = .ok rest prog → rest ≠ [] →
        Asm.program input = .fail)
      ∧ (∀ prog, Asm.program input = .ok prog →
        Asm.progBody input = .ok [] prog) := by
  intro input
  constructor
  · intro rest prog h hne
    simp [Asm.program, h, hne]
  · intro prog h
    unfold Asm.program at h
    cases hb : Asm.progBody input with
    | ok r p =>
      rw [hb] at h
      by_cases hr : r = []
      · subst hr
        simp at h
        simp [h]
      · simp [hr] at h
    | fail => rw [hb] at h; simp at h
    | crash => rw [hb] at h; simp at h

/-- Witness for C5: on `ADD :` the body leaves `:` unparsed and `program`
fails as a whole. -/
theorem C5_all_consuming_witness :
    Asm.progBody (str "ADD :") = .ok (str ":") [.add]
    ∧ Asm.program (str "ADD :") = .fail :=
  ⟨by decide,
   (C5_all_consuming (str "ADD :")).1 (str ":") [.add] (by decide) (by decide)⟩

/-! ## Claim C6 (corrected): RET matching is prefix-based -/

/-- Counterexample to claim C6: the claim says the instruction parser
never yields Ret on a longer identifier beginning with the letters of RET,
but on `return` it does (consuming `ret`, leaving `urn`) — exactly the
behaviour the source's own test endorses. -/
theorem C6_cex : Asm.node (str "return") = .ok (str "urn") .ret := by decide

/-- Claim C6 as amended: the RET rule is a case-insensitive *prefix* match:
on any input beginning with the letters R,E,T (any case) on which the
alternatives tried before `ret` (the arithmetic group, the variable group,
the control group, `function` and `call`) all fail, the instruction parser
yields Ret and consumes exactly those three characters, even when they
begin a longer identifier. -/
theorem C6_ret_prefix :
    ∀ (c1 c2 c3 : Char) (rest : List Char),
      c1.toLower = 'R'.toLower → c2.toLower = 'E'.toLower →
      c3.toLower = 'T'.toLower →
      Asm.nodeArith (c1 :: c2 :: c3 :: rest) = .fail →
      Asm.nodeVars (c1 :: c2 :: c3 :: rest) = .fail →
      Asm.nodeCtrl (c1 :: c2 :: c3 :: rest) = .fail →
      Asm.function (c1 :: c2 :: c3 :: rest) = .fail →
      Asm.call (c1 :: c2 :: c3 :: rest) = .fail →
      Asm.node (c1 :: c2 :: c3 :: rest) = .ok rest .ret := by
  intro c1 c2 c3 rest h1 h2 h3 ha hv hc hf hcall
  have hret : Asm.ret (c1 :: c2 :: c3 :: rest) = .ok rest .ret := by
    simp [Asm.ret, Asm.noargNode, Asm.kwRET, Asm.tagNoCase, h1, h2, h3]
  simp [Asm.node, Asm.nodeFuncs, Asm.alt2, ha, hv, hc, hf, hcall, hret]

/-- Witness for C6: `retx` is a longer identifier starting with `ret` and
still parses as Ret leaving `x`. -/
theorem C6_ret_prefix_witness :
    Asm.node ('r' :: 'e' :: 't' :: ['x']) = .ok ['x'] .ret :=
  C6_ret_prefix 'r' 'e' 't' ['x'] (by decide) (by decide) (by decide)
    (by decide) (by decide) (by decide) (by decide) (by decide)

/-! ## Claim C7 (corrected): label recognition loses to earlier opcode
rules -/

/-- Counterexample to claim C7: the claim says *any* identifier followed
by `:` (including one equal to an opcode keyword) is recognized as a Label
declaration; but on `ADD:` the instruction parser yields Add (consuming
only `ADD`, leaving `:`), because the opcode alternatives are tried before
the label rule. -/
theorem C7_cex : Asm.node (str "ADD:") = .ok (str ":") .add := by decide

/-- Claim C7 as amended: an identifier immediately followed by `:` is
recognized as a Label declaration *provided* the alternatives tried before
`label` (the arithmetic group and the variable group) fail on that input;
identifiers that begin with one of those earlier opcode keywords are
instead parsed by that opcode rule. -/
theorem C7_label_amended :
    ∀ (name rest : List Char),
      name ≠ [] → (∀ c ∈ name, isIdentCharB c = true) →
      Asm.nodeArith (name ++ ':' :: rest) = .fail →
      Asm.nodeVars (name ++ ':' :: rest) = .fail →
      Asm.node (name ++ ':' :: rest) = .ok rest (.label name) := by
  intro name rest hne hid ha hv
  have hsplit := takeWhile_app name (':' :: rest) hid
    (by intro h t ht; cases ht; decide)
  have hlbl : Asm.label (name ++ ':' :: rest) = .ok rest (.label name) := by
    simp [Asm.label, Asm.identifier, hsplit.1, hsplit.2, hne, Asm.tagNoCase]
  simp [Asm.node, Asm.nodeCtrl, Asm.alt2, ha, hv, hlbl]

/-- Witness for C7: the one-character identifier `x` followed by `:` is a
label. -/
theorem C7_label_amended_witness :
    Asm.node (['x'] ++ ':' :: []) = .ok [] (.label ['x']) :=
  C7_label_amended ['x'] [] (by decide) (by decide) (by decide) (by decide)

/-! ## Claim C8: no single-instruction rule consumes trailing whitespace -/

/-- Claim C8: the instruction parser applied to `ADD` followed by anything
returns Add leaving that remainder untouched (so `ADD ` leaves `\x20` and
`ADD` leaves nothing), and any input with a leading space is rejected by
the instruction parser. -/
theorem C8_boundaries :
    (∀ rest, Asm.node ('A' :: 'D' :: 'D' :: rest) = .ok rest .add)
    ∧ (∀ rest, Asm.node (' ' :: rest) = .fail) :=
  ⟨fun _ => rfl, fun _ => rfl⟩

/-! ## Machinery for claims C4 and C10 -/

/-- Dropping a leading whitespace run from whitespace-and-comments text
leaves whitespace-and-comments text. -/
theorem sepText_dropWhile {s : List Char} (h : SepText s) :
    SepText (s.dropWhile isMS) := by
  induction h with
  | nil => simpa using SepText.nil
  | ws c rest hc hrest ih =>
    simpa [List.dropWhile_cons, hc] using ih
  | block body rest hb hrest ih =>
    rw [List.dropWhile_cons]
    simp only [show isMS '/' = false from by decide, Bool.false_eq_true, if_false]
    exact SepText.block body rest hb hrest
  | line body rest hb hr hrest ih =>
    rw [List.dropWhile_cons]
    simp only [show isMS '#' = false from by decide, Bool.false_eq_true, if_false]
    exact SepText.line body rest hb hr hrest

/-- On nonempty whitespace-and-comments text, one `between_nodes` unit
succeeds, consumes a nonempty prefix, and leaves whitespace-and-comments
text. -/
theorem bnUnit_sep {s : List Char} (h : SepText s) (hne : s ≠ []) :
    ∃ c r, Asm.bnUnit s = some (r, c) ∧ c ++ r = s ∧ c ≠ [] ∧ SepText r := by
  cases h with
  | nil => exact absurd rfl hne
  | ws c rest hc hrest =>
    refine ⟨(c :: rest).takeWhile isMS, (c :: rest).dropWhile isMS, ?_, ?_, ?_, ?_⟩
    · have hne' : (c :: rest).takeWhile isMS ≠ [] := by
        simp [List.takeWhile_cons, hc]
      simp [Asm.bnUnit, Asm.multispace1, hne']
    · exact List.takeWhile_append_dropWhile isMS (c :: rest)
    · simp [List.takeWhile_cons, hc]
    · exact sepText_dropWhile (SepText.ws c rest hc hrest)
  | block body rest hb hrest =>
    refine ⟨'/' :: '*' :: (body ++ ['*', '/']), rest, ?_, ?_, by simp, hrest⟩
    · have hms : Asm.multispace1 ('/' :: '*' :: (body ++ ('*' :: '/' :: rest)))
          = none := by
        simp [Asm.multispace1, List.takeWhile_cons,
          show isMS '/' = false from by decide]
      have hmlc : Asm.multi_line_comment ('/' :: '*' :: (body ++ ('*' :: '/' :: rest)))
          = some (rest, '/' :: '*' :: (body ++ ['*', '/'])) := by
        simp [Asm.multi_line_comment, takeUntilCC_app body rest hb]
      simp [Asm.bnUnit, hms, hmlc]
    · simp
  | line body rest hb hr hrest =>
    have hr' : ∀ x t, rest = x :: t → notNlB x = false := by
      intro x t hxt
      rcases hr with h0 | ⟨y, u, hyu, hy⟩
      · rw [h0] at hxt
        exact absurd hxt (by simp)
      · rw [hyu] at hxt
        cases hxt
        exact hy
    have hsplit := takeWhile_app body rest hb hr'
    refine ⟨'#' :: body, rest, ?_, by simp, by simp, hrest⟩
    have hms : Asm.multispace1 ('#' :: (body ++ rest)) = none := by
      simp [Asm.multispace1, List.takeWhile_cons,
        show isMS '#' = false from by decide]
    have hmlc : Asm.multi_line_comment ('#' :: (body ++ rest)) = none := rfl
    have hslc : Asm.single_line_comment ('#' :: (body ++ rest))
        = some (rest, '#' :: body) := by
      simp [Asm.single_line_comment, hsplit.1, hsplit.2]
    simp [Asm.bnUnit, hms, hmlc, hslc]

/-- With enough fuel, the `between_nodes` loop consumes all of a
whitespace-and-comments input. -/
theorem many0_bn :
    ∀ (n : Nat) (s : List Char), s.length ≤ n → SepText s →
      Asm.many0R Asm.bnUnit n s = ([], s) := by
  intro n
  induction n with
  | zero =>
    intro s hlen _
    have : s = [] := List.length_eq_zero.1 (Nat.le_zero.1 hlen)
    subst this
    rfl
  | succ n ih =>
    intro s hlen hs
    by_cases hne : s = []
    · subst hne
      rfl
    · obtain ⟨c, r, hu, hcr, hcne, hr⟩ := bnUnit_sep hs hne
      have hrlen : r.length ≤ n := by
        have hsum : c.length + r.length = s.length := by
          rw [← List.length_append, hcr]
        have hc1 : 1 ≤ c.length := by
          cases c with
          | nil => exact absurd rfl hcne
          | cons _ _ => simp
        omega
      have hrec := ih r hrlen hr
      simp [Asm.many0R, hu, hrec, hcr]

/-- `between_nodes` consumes all of a nonempty whitespace-and-comments
input. -/
theorem between_nodes_sep {s : List Char} (h : SepText s) (hne : s ≠ []) :
    Asm.between_nodes s = some ([], s) := by
  obtain ⟨c, r, hu, hcr, hcne, hr⟩ := bnUnit_sep h hne
  have hloop := many0_bn (r.length + 1) r (Nat.le_succ _) hr
  simp [Asm.between_nodes, hu, hloop, hcr]

/-! ## Claim C10: whitespace-and-comments-only inputs parse to the empty
Program -/

/-- Claim C10: `program` accepts the empty input and any input consisting
solely of whitespace and comments, returning the empty instruction
sequence. -/
theorem C10_sep_only : ∀ s, SepText s → Asm.program s = .ok [] := by
  intro s hs
  by_cases hne : s = []
  · subst hne
    decide
  · have hbn := between_nodes_sep hs hne
    have h1 : Asm.sepList 1 [] = .ok [] [] := by decide
    have h2 : Asm.between_nodes [] = none := by decide
    have hpb : Asm.progBody s = .ok [] [] := by
      simp [Asm.progBody, hbn, h1, h2]
    simp [Asm.program, hpb]

/-- Witness for C10: a space, a newline and a line comment parse to the
empty Program. -/
theorem C10_sep_only_witness :
    Asm.program (' ' :: '\n' :: '#' :: 'x' :: []) = .ok [] :=
  C10_sep_only (' ' :: '\n' :: '#' :: 'x' :: [])
    (SepText.ws ' ' ('\n' :: '#' :: 'x' :: []) (by decide)
      (SepText.ws '\n' ('#' :: 'x' :: []) (by decide)
        (SepText.line ['x'] [] (by decide) (Or.inl rfl) SepText.nil)))

/-! ## Claim C4 (corrected): the within-instruction separator -/

/-- Counterexample to claim C4: the claim says an opcode's arguments can
never span multiple lines; but a block comment inside the separator may
contain a newline, so this two-line input parses as a single Iconst. -/
theorem C4_cex : Asm.node (str "ICONST /*\n*/ 5") = .ok [] (.iconst 5) := by decide

/-- A wholly space/tab prefix can be prepended to a `WithinRun`. -/
theorem wr_append_spaces {c t : List Char} (hc : ∀ x ∈ c, isSpaceTab x = true)
    (ht : WithinRun t) : WithinRun (c ++ t) := by
  induction c with
  | nil => simpa using ht
  | cons a c ih =>
    have ha : a = ' ' ∨ a = '\t' := by
      simpa [isSpaceTab] using hc a (by simp)
    exact WithinRun.space a _ ha (ih (fun x hx => hc x (by simp [hx])))

/-- What `multi_line_comment` consumes is a complete `/* .. */` block. -/
theorem mlc_shape {input r c : List Char}
    (h : Asm.multi_line_comment input = some (r, c)) :
    ∃ body, c = '/' :: '*' :: (body ++ ['*', '/']) := by
  unfold Asm.multi_line_comment at h
  split at h
  · split at h
    · cases h
      exact ⟨_, rfl⟩
    · exact Option.noConfusion h
  · exact Option.noConfusion h

/-- What `space1` consumes is all spaces and tabs. -/
theorem space1_chars {input r c : List Char} (h : Asm.space1 input = some (r, c)) :
    ∀ x ∈ c, isSpaceTab x = true := by
  unfold Asm.space1 at h
  by_cases hp : input.takeWhile isSpaceTab = []
  · simp [hp] at h
  · simp [hp] at h
    intro x hx
    rw [← h.2] at hx
    exact List.mem_takeWhile_imp hx

/-- Every prefix consumed by the `within_node` loop is a run of spaces,
tabs and complete block comments. -/
theorem many0R_wn : ∀ (fuel : Nat) (input : List Char),
    WithinRun (Asm.many0R Asm.wnUnit fuel input).2 := by
  intro fuel
  induction fuel with
  | zero => intro _; exact WithinRun.nil
  | succ n ih =>
    intro input
    cases hu : Asm.wnUnit input with
    | none =>
      simp [Asm.many0R, hu]
      exact WithinRun.nil
    | some rc =>
      obtain ⟨r, c⟩ := rc
      have hrec := ih r
      have hshape : (∀ x ∈ c, isSpaceTab x = true)
          ∨ ∃ body, c = '/' :: '*' :: (body ++ ['*', '/']) := by
        unfold Asm.wnUnit at hu
        cases hs : Asm.space1 input with
        | some rc2 =>
          rw [hs] at hu
          cases hu
          exact Or.inl (space1_chars hs)
        | none =>
          rw [hs] at hu
          exact Or.inr (mlc_shape hu)
      simp only [Asm.many0R, hu]
      rcases hshape with hsp | ⟨body, rfl⟩
      · exact wr_append_spaces hsp hrec
      · have hassoc : ('/' :: '*' :: (body ++ ['*', '/']))
              ++ (Asm.many0R Asm.wnUnit n r).2
            = '/' :: '*' :: (body ++ ('*' :: '/' :: (Asm.many0R Asm.wnUnit n r).2)) := by
          simp
        rw [hassoc]
        exact WithinRun.comment body _ hrec

/-- Claim C4 as amended: the separator run between an opcode keyword and
its operands consists only of spaces, tabs and complete block comments; a
bare newline never appears (the `space` case admits only `' '` and
`'\t'`), but a newline *inside* a block comment is allowed, so operands
can span lines through a block comment (see the counterexample). -/
theorem C4_separator_runs : ∀ input, WithinRun (Asm.within_node input).2 := by
  intro input
  exact many0R_wn (input.length + 1) input

/-! ## Claim C9: the string-operand wire layout -/

/-- Claim C9: every string operand is written as a 4-byte little-endian
length equal to the byte length plus one, then the raw bytes, then exactly
one NUL byte; and each string-operand instruction (Sconst text, Read/Write
global name, Label name, Reserve name/initial value) embeds precisely that
layout after its opcode tag. -/
theorem C9_string_encoding :
    (∀ s bs, writeStr s = some bs →
        bs = toLeBytes4 (((strBytes s).length + 1 : Nat) : Int)
          ++ strBytes s ++ [0])
    ∧ (∀ tag icode s bs, encodeInstr tag icode (.sconst s) = some bs →
        ∃ sb, writeStr s = some sb ∧ bs = writeTag (tag (.sconst s)) ++ sb)
    ∧ (∀ tag icode s bs, encodeInstr tag icode (.read s) = some bs →
        ∃ sb, writeStr s = some sb ∧ bs = writeTag (tag (.read s)) ++ sb)
    ∧ (∀ tag icode s bs, encodeInstr tag icode (.write s) = some bs →
        ∃ sb, writeStr s = some sb ∧ bs = writeTag (tag (.write s)) ++ sb)
    ∧ (∀ tag icode s bs, encodeInstr tag icode (.label s) = some bs →
        ∃ sb, writeStr s = some sb ∧ bs = writeTag (tag (.label s)) ++ sb)
    ∧ (∀ tag icode sz name init bs,
        encodeInstr tag icode (.reserveString sz name init) = some bs →
        ∃ nb ib zb, writeStr name = some nb ∧ writeStr init = some ib
          ∧ writeU64 sz = some zb
          ∧ bs = writeTag (tag (.reserveString sz name init)) ++ nb ++ ib ++ zb) := by
  refine ⟨?_, ?_, ?_, ?_, ?_, ?_⟩
  · intro s bs h
    unfold writeStr at h
    by_cases hr : (((strBytes s).length + 1 : Nat) : Int) ≤ i32Max
    · simp only [hr, if_true] at h
      simp at h
      exact h.symm
    · simp only [hr, if_false] at h
      simp at h
  · intro tag icode s bs h
    cases hw : writeStr s with
    | none => simp [encodeInstr, hw] at h
    | some sb =>
      refine ⟨sb, rfl, ?_⟩
      simp [encodeInstr, hw] at h
      exact h.symm
  · intro tag icode s bs h
    cases hw : writeStr s with
    | none => simp [encodeInstr, hw] at h
    | some sb =>
      refine ⟨sb, rfl, ?_⟩
      simp [encodeInstr, hw] at h
      exact h.symm
  · intro tag icode s bs h
    cases hw : writeStr s with
    | none => simp [encodeInstr, hw] at h
    | some sb =>
      refine ⟨sb, rfl, ?_⟩
      simp [encodeInstr, hw] at h
      exact h.symm
  · intro tag icode s bs h
    cases hw : writeStr s with
    | none => simp [encodeInstr, hw] at h
    | some sb =>
      refine ⟨sb, rfl, ?_⟩
      simp [encodeInstr, hw] at h
      exact h.symm
  · intro tag icode sz name init bs h
    cases hn : writeStr name with
    | none => simp [encodeInstr, hn] at h
    | some nb =>
      cases hi : writeStr init with
      | none => simp [encodeInstr, hn, hi] at h
      | some ib =>
        cases hz : writeU64 sz with
        | none => simp [encodeInstr, hn, hi, hz] at h
        | some zb =>
          refine ⟨nb, ib, zb, rfl, rfl, rfl, ?_⟩
          simp [encodeInstr, hn, hi, hz] at h
          simp [← h, List.append_assoc]

/-- Witness for C9: encoding the two-byte string `ab` produces the length
field 3 (= 2 + 1), the bytes 97 98, and one NUL. -/
theorem C9_string_encoding_witness :
    writeStr (str "ab") = some [3, 0, 0, 0, 97, 98, 0]
    ∧ [3, 0, 0, 0, 97, 98, 0]
        = toLeBytes4 (((strBytes (str "ab")).length + 1 : Nat) : Int)
          ++ strBytes (str "ab") ++ [0] :=
  ⟨by decide, C9_string_encoding.1 (str "ab") [3, 0, 0, 0, 97, 98, 0] (by decide)⟩

/-! ## Regression examples mirroring the unit tests in assemble.rs -/

example : Asm.inside_string (str "\\\"") = (str "", str "\"") := by decide

example : Asm.inside_string (str "bad: \\n ") = (str "bad: \\n ", str "") := by decide

example : Asm.inside_string (str "ends \\") = (str "ends \\", str "") := by decide

example : Asm.string_literal (str "\"\"") = some (str "", str "") := by decide

example : Asm.identifier (str "hello goodbye") = some (str " goodbye", str "hello") := by decide

example : Asm.node (str "ADD ") = .ok (str " ") .add := by decide

example : Asm.node (str "sUb   kdf") = .ok (str "   kdf") .sub := by decide

example : Asm.node (str " div") = .fail := by decide

example : Asm.node (str "ICONST 50") = .ok (str "") (.iconst 50) := by decide

example : Asm.node (str "sConst \" with \\\" literal quotes \\\" \"")
    = .ok (str "") (.sconst (str " with \" literal quotes \" ")) := by decide

example : Asm.node (str "Reserve var 10 \"Hello world\"")
    = .ok (str "") (.reserveString 10 (str "var") (str "Hello world")) := by decide

example : Asm.node (str "Reserve $_$ 4 (null)")
    = .ok (str "") (.reserveInt (str "$_$")) := by decide

example : Asm.node (str "ARGLOCAL_READ -1") = .fail := by decide

example : Asm.node (str "ARGLOCAL_READ illegal_named_local") = .fail := by decide

example : Asm.node (str "birch:") = .ok (str "") (.label (str "birch")) := by decide

example : Asm.node (str "JUMP L0  h") = .ok (str "  h") (.jump (str "L0")) := by decide

example : Asm.node (str "FuncTion no_locals 0")
    = .ok (str "") (.function (str "no_locals") 0) := by decide

example : Asm.node (str "caLL negative_args -5") = .fail := by decide

example : Asm.node (str "INTRINSIC print_int")
    = .ok (str "") (.intrinsic .printInt) := by decide

example : Asm.node (str "intrinsic") = .fail := by decide

example : Asm.node (str "PUSH") = .fail := by decide

example : Asm.node (str "pop -1") = .ok (str "") (.pop (-1)) := by decide

example : Asm.program (str "band\nbor\nand\nxor")
    = .ok [.band, .bor, .and, .xor] := by decide

example : Asm.program (str " band \n bor\n \tAnd \n     \txOR \n")
    = .ok [.band, .bor, .and, .xor] := by decide

example : Asm.program (str "Iconst -30 # Very important comment\nL0: JUMP L0")
    = .ok [.iconst (-30), .label (str "L0"), .jump (str "L0")] := by decide

example : Asm.program (str "Iconst 40\n/* c */\nAdd") = .ok [.iconst 40, .add] := by decide

example : Asm.single_line_comment (str "# Hello\n") = some (str "\n", str "# Hello") := by decide

example : Asm.multi_line_comment (str "/* */ */") = some (str " */", str "/* */") := by decide

example : Asm.multi_line_comment (str "/*") = none := by decide
